import Mathlib

/-!
Verification of the docify markdown-to-docx conversion core.

Strings are modelled as `List Char`.  The inline formatting scanner of
`processFormattedText` is a faithful embedding of the JavaScript regex

  `/(\[([^\]]+)\]\(([^)]+)\)|~~.*?~~|\*\*.*?\*\*|\*.*?\*|`.*?`)/g`

run with `exec` in a loop: at each cursor position the alternatives are
tried in order (link, strikethrough, bold, italic, inline code); the lazy
`.*?` takes the shortest closing delimiter; `.` does not match line
terminators; the scan position advances to the end of each match.
-/

/-- Backtick character, U+0060. -/
def backtick : Char := Char.ofNat 96

/-- Models the JavaScript regex metacharacter dot without the s flag:
every character except the four line terminators matches. -/
def isDot (c : Char) : Bool :=
  !(c == Char.ofNat 10 || c == Char.ofNat 13 ||
    c == Char.ofNat 0x2028 || c == Char.ofNat 0x2029)

/-- Properties of a docx TextRun as constructed by the converter
(`font`/`size` defaults are the Arial-24 body style used everywhere). -/
structure TRProps where
  bold : Bool := false
  italics : Bool := false
  strike : Bool := false
  font : String := "Arial"
  size : Nat := 24
  color : Option String := none
deriving DecidableEq, Repr

/-- One element of a docx paragraph's `children`: a TextRun or an
ExternalHyperlink (whose single child is the hyperlink-styled TextRun). -/
inductive Run
| tr (text : List Char) (props : TRProps)
| link (display : List Char) (url : List Char)
deriving DecidableEq, Repr

def defProps : TRProps := {}
def boldProps : TRProps := { bold := true }
def italProps : TRProps := { italics := true }
def strikeProps : TRProps := { strike := true }
def codeProps : TRProps := { font := "Courier New" }
def captionProps : TRProps := { italics := true, size := 20, color := some "666666" }
def markerProps : TRProps := { size := 20, color := some "999999" }

/-- Literal text of a run (for hyperlinks, the display text). -/
def runText : Run → List Char
| .tr t _ => t
| .link t _ => t

/-- Concatenation of the literal text of a run sequence. -/
def textConcat : List Run → List Char
| [] => []
| r :: rest => runText r ++ textConcat rest

/-- Split a character list at the first occurrence of `c`
(models a greedy negated character class `[^c]*` followed by `c`). -/
def splitAtChar (c : Char) : List Char → Option (List Char × List Char)
| [] => none
| a :: rest =>
  if a = c then some ([], rest)
  else (splitAtChar c rest).map (fun pr => (a :: pr.1, pr.2))

/-- Lazy search for a single closing delimiter `c` (`.*?c`): the inner
text is everything before the first `c`, and must be all dot-matchable. -/
def findClose1 (c : Char) : List Char → Option (List Char × List Char)
| [] => none
| a :: rest =>
  if a = c then some ([], rest)
  else if isDot a then (findClose1 c rest).map (fun pr => (a :: pr.1, pr.2))
  else none

/-- Lazy search for a doubled closing delimiter `cc` (`.*?cc`). -/
def findClose2 (c : Char) : List Char → Option (List Char × List Char)
| a :: b :: rest =>
  if a = c ∧ b = c then some ([], rest)
  else if isDot a then (findClose2 c (b :: rest)).map (fun pr => (a :: pr.1, pr.2))
  else none
| _ => none

/-- A raw regex match: which alternative matched and its captured pieces. -/
inductive RawMatch
| link (text url : List Char)
| pair2 (c : Char) (inner : List Char)
| pair1 (c : Char) (inner : List Char)
deriving DecidableEq, Repr, Inhabited

/-- The full matched text (`match[0]`). -/
def RawMatch.part : RawMatch → List Char
| .link t u => '[' :: t ++ ']' :: '(' :: u ++ [')']
| .pair2 c i => c :: c :: i ++ [c, c]
| .pair1 c i => c :: i ++ [c]

/-- The text the converter keeps for a match: the marker characters
(and, for hyperlinks, the URL apparatus) are removed. -/
def RawMatch.kept : RawMatch → List Char
| .link t _ => t
| .pair2 _ i => i
| .pair1 _ i => i

/-- Alternative 1: `\[([^\]]+)\]\(([^)]+)\)` at the head of the input. -/
def tryLink : List Char → Option (RawMatch × List Char)
| [] => none
| a :: rest =>
  if a = '[' then
    match splitAtChar ']' rest with
    | some (t, rest2) =>
      if t.isEmpty then none
      else
        match rest2 with
        | p :: rest3 =>
          if p = '(' then
            match splitAtChar ')' rest3 with
            | some (u, rest4) => if u.isEmpty then none else some (.link t u, rest4)
            | none => none
          else none
        | [] => none
    | none => none
  else none

/-- Alternatives of shape `cc.*?cc` at the head of the input. -/
def tryPair2 (c : Char) : List Char → Option (RawMatch × List Char)
| a :: b :: rest =>
  if a = c ∧ b = c then
    (findClose2 c rest).map (fun pr => (.pair2 c pr.1, pr.2))
  else none
| _ => none

/-- Alternatives of shape `c.*?c` at the head of the input. -/
def tryPair1 (c : Char) : List Char → Option (RawMatch × List Char)
| a :: rest =>
  if a = c then
    (findClose1 c rest).map (fun pr => (.pair1 c pr.1, pr.2))
  else none
| [] => none

/-- All five alternatives in the regex order at one cursor position. -/
def matchAt (s : List Char) : Option (RawMatch × List Char) :=
  (tryLink s) <|> (tryPair2 '~' s) <|> (tryPair2 '*' s) <|>
    (tryPair1 '*' s) <|> (tryPair1 backtick s)

/-- Leftmost match: the text before the match, the match, and the rest
of the input after it (the regex engine's scan over positions). -/
def findMatch : List Char → Option (List Char × RawMatch × List Char)
| [] => none
| a :: rest =>
  match matchAt (a :: rest) with
  | some (r, rem) => some ([], r, rem)
  | none => (findMatch rest).map (fun pr => (a :: pr.1, pr.2.1, pr.2.2))

/-- Models `part.slice(n, -n)` for the matched parts. -/
def midSlice (n : Nat) (l : List Char) : List Char :=
  (l.drop n).take (l.length - 2 * n)

/-- Prefix test on character lists (`String.prototype.startsWith`). -/
def leadsWith : List Char → List Char → Bool
| [], _ => true
| _ :: _, [] => false
| a :: as, b :: bs => a == b && leadsWith as bs

/-- Suffix test on character lists (`String.prototype.endsWith`). -/
def trailsWith (pat l : List Char) : Bool :=
  leadsWith pat.reverse l.reverse

/-- The converter's if-chain over `part` that builds the styled run:
strikethrough, bold, italic (excluding `**`), inline code. -/
def classifyChain (part : List Char) : Option Run :=
  if leadsWith ['~', '~'] part && trailsWith ['~', '~'] part then
    some (.tr (midSlice 2 part) strikeProps)
  else if leadsWith ['*', '*'] part && trailsWith ['*', '*'] part then
    some (.tr (midSlice 2 part) boldProps)
  else if leadsWith ['*'] part && trailsWith ['*'] part && !leadsWith ['*', '*'] part then
    some (.tr (midSlice 1 part) italProps)
  else if leadsWith [backtick] part && trailsWith [backtick] part then
    some (.tr (midSlice 1 part) codeProps)
  else none

/-- The run pushed for one regex match: the hyperlink branch fires when
both link captures are present and nonempty (`match[2] && match[3]`),
otherwise the start/end tests on `part` run in order.  A `none` result
models the if-chain falling through with nothing pushed. -/
def classify (r : RawMatch) : Option Run :=
  match r with
  | .link t u =>
    if t.isEmpty || u.isEmpty then classifyChain (RawMatch.link t u).part
    else some (.link t u)
  | .pair2 c i => classifyChain (RawMatch.pair2 c i).part
  | .pair1 c i => classifyChain (RawMatch.pair1 c i).part

/-- Per-alternative invariants guaranteed for every match the scanner
can produce. -/
def goodRaw : RawMatch → Prop
| .link t u => t ≠ [] ∧ u ≠ []
| .pair2 c _ => c = '~' ∨ c = '*'
| .pair1 c i => (c = '*' ∨ c = backtick) ∧ ∀ x ∈ i, x ≠ c

theorem splitAtChar_eq {c : Char} :
    ∀ {s b a : List Char}, splitAtChar c s = some (b, a) →
      s = b ++ c :: a ∧ ∀ x ∈ b, x ≠ c := by
  intro s
  induction s with
  | nil => intro b a h; simp [splitAtChar] at h
  | cons x rest ih =>
    intro b a h
    by_cases hx : x = c
    · simp only [splitAtChar, if_pos hx, Option.some.injEq, Prod.mk.injEq] at h
      obtain ⟨hb, ha⟩ := h
      subst hb; subst ha; subst hx
      simp
    · rcases hsp : splitAtChar c rest with _ | ⟨b0, a0⟩
      · simp [splitAtChar, hx, hsp] at h
      · simp only [splitAtChar, if_neg hx, hsp, Option.map_some, Option.some.injEq,
          Prod.mk.injEq] at h
        obtain ⟨rfl, rfl⟩ := h
        obtain ⟨hs, hall⟩ := ih hsp
        refine ⟨by simp [hs], ?_⟩
        intro y hy
        rcases List.mem_cons.mp hy with h1 | h2
        · subst h1; exact hx
        · exact hall y h2

theorem findClose1_eq {c : Char} :
    ∀ {s i r : List Char}, findClose1 c s = some (i, r) →
      s = i ++ c :: r ∧ ∀ x ∈ i, x ≠ c ∧ isDot x = true := by
  intro s
  induction s with
  | nil => intro i r h; simp [findClose1] at h
  | cons x rest ih =>
    intro i r h
    by_cases hx : x = c
    · simp only [findClose1, if_pos hx, Option.some.injEq, Prod.mk.injEq] at h
      obtain ⟨hi, hr⟩ := h
      subst hi; subst hr; subst hx
      simp
    · by_cases hd : isDot x
      · rcases hf : findClose1 c rest with _ | ⟨i0, r0⟩
        · simp [findClose1, hx, hd, hf] at h
        · simp only [findClose1, if_neg hx, if_pos hd, hf, Option.map_some,
            Option.some.injEq, Prod.mk.injEq] at h
          obtain ⟨rfl, rfl⟩ := h
          obtain ⟨hs, hall⟩ := ih hf
          refine ⟨by simp [hs], ?_⟩
          intro y hy
          rcases List.mem_cons.mp hy with h1 | h2
          · subst h1; exact ⟨hx, hd⟩
          · exact hall y h2
      · simp [findClose1, hx, hd] at h

theorem findClose2_eq {c : Char} :
    ∀ {s i r : List Char}, findClose2 c s = some (i, r) →
      s = i ++ c :: c :: r ∧ ∀ x ∈ i, isDot x = true := by
  intro s
  induction s with
  | nil => intro i r h; simp [findClose2] at h
  | cons a s' ih =>
    intro i r h
    cases s' with
    | nil => simp [findClose2] at h
    | cons b rest =>
      by_cases hab : a = c ∧ b = c
      · simp only [findClose2, if_pos hab, Option.some.injEq, Prod.mk.injEq] at h
        obtain ⟨hi, hr⟩ := h
        subst hi; subst hr
        simp [hab.1, hab.2]
      · by_cases hd : isDot a
        · rcases hf : findClose2 c (b :: rest) with _ | ⟨i0, r0⟩
          · simp [findClose2, hab, hd, hf] at h
          · simp only [findClose2, if_neg hab, if_pos hd, hf, Option.map_some,
              Option.some.injEq, Prod.mk.injEq] at h
            obtain ⟨rfl, rfl⟩ := h
            obtain ⟨hs, hall⟩ := ih hf
            refine ⟨by simp [hs], ?_⟩
            intro y hy
            rcases List.mem_cons.mp hy with h1 | h2
            · subst h1; exact hd
            · exact hall y h2
        · simp [findClose2, hab, hd] at h

theorem tryLink_eq {s : List Char} {r : RawMatch} {rest : List Char}
    (h : tryLink s = some (r, rest)) :
    s = r.part ++ rest ∧ goodRaw r := by
  match s with
  | [] => simp [tryLink] at h
  | a :: s' =>
    by_cases ha : a = '['
    · rcases hsp : splitAtChar ']' s' with _ | ⟨t, rest2⟩
      · simp [tryLink, ha, hsp] at h
      · by_cases ht : t.isEmpty
        · simp [tryLink, ha, hsp, ht] at h
        · cases rest2 with
          | nil => simp [tryLink, ha, hsp, ht] at h
          | cons p rest3 =>
            by_cases hp : p = '('
            · rcases hsp2 : splitAtChar ')' rest3 with _ | ⟨u, rest4⟩
              · simp [tryLink, ha, hsp, ht, hp, hsp2] at h
              · by_cases hu : u.isEmpty
                · simp [tryLink, ha, hsp, ht, hp, hsp2, hu] at h
                · simp only [tryLink, ha, hsp, ht, hp, hsp2, hu, if_true, if_false,
                    Bool.false_eq_true, not_false_eq_true, Option.some.injEq,
                    Prod.mk.injEq, ite_false, ite_true] at h
                  obtain ⟨hr, hrest⟩ := h
                  obtain ⟨hs1, _⟩ := splitAtChar_eq hsp
                  obtain ⟨hs2, _⟩ := splitAtChar_eq hsp2
                  subst hrest
                  constructor
                  · rw [← hr]
                    simp [RawMatch.part, ha, hs1, hs2, hp]
                  · rw [← hr]
                    exact ⟨by simpa using ht, by simpa using hu⟩
            · simp [tryLink, ha, hsp, ht, hp] at h
    · simp [tryLink, ha] at h

theorem tryPair2_eq {c : Char} {s : List Char} {r : RawMatch} {rest : List Char}
    (hc : c = '~' ∨ c = '*') (h : tryPair2 c s = some (r, rest)) :
    s = r.part ++ rest ∧ goodRaw r ∧
      ∃ i, r = .pair2 c i ∧ ∀ x ∈ i, isDot x = true := by
  match s with
  | [] => simp [tryPair2] at h
  | [a] => simp [tryPair2] at h
  | a :: b :: s' =>
    by_cases hab : a = c ∧ b = c
    · rw [tryPair2, if_pos hab] at h
      match hf : findClose2 c s' with
      | none => rw [hf] at h; simp at h
      | some (i, rem) =>
        rw [hf] at h
        simp at h
        obtain ⟨hr, hrest⟩ := h
        obtain ⟨hs, hall⟩ := findClose2_eq hf
        subst hrest
        refine ⟨?_, ?_, ?_⟩
        · rw [← hr]
          simp [RawMatch.part, hab.1, hab.2, hs]
        · rw [← hr]; exact hc
        · exact ⟨i, hr.symm, hall⟩
    · rw [tryPair2, if_neg hab] at h; simp at h

theorem tryPair1_eq {c : Char} {s : List Char} {r : RawMatch} {rest : List Char}
    (hc : c = '*' ∨ c = backtick) (h : tryPair1 c s = some (r, rest)) :
    s = r.part ++ rest ∧ goodRaw r ∧
      ∃ i, r = .pair1 c i ∧ ∀ x ∈ i, isDot x = true := by
  match s with
  | [] => simp [tryPair1] at h
  | a :: s' =>
    by_cases ha : a = c
    · rw [tryPair1, if_pos ha] at h
      match hf : findClose1 c s' with
      | none => rw [hf] at h; simp at h
      | some (i, rem) =>
        rw [hf] at h
        simp at h
        obtain ⟨hr, hrest⟩ := h
        obtain ⟨hs, hall⟩ := findClose1_eq hf
        subst hrest
        refine ⟨?_, ?_, ?_⟩
        · rw [← hr]
          simp [RawMatch.part, ha, hs]
        · rw [← hr]
          exact ⟨hc, fun x hx => (hall x hx).1⟩
        · exact ⟨i, hr.symm, fun x hx => (hall x hx).2⟩
    · rw [tryPair1, if_neg ha] at h; simp at h

theorem matchAt_eq {s : List Char} {r : RawMatch} {rest : List Char}
    (h : matchAt s = some (r, rest)) :
    s = r.part ++ rest ∧ goodRaw r := by
  rw [matchAt] at h
  rcases h1 : tryLink s with _ | v1
  · rcases h2 : tryPair2 '~' s with _ | v2
    · rcases h3 : tryPair2 '*' s with _ | v3
      · rcases h4 : tryPair1 '*' s with _ | v4
        · rcases h5 : tryPair1 backtick s with _ | v5
          · rw [h1, h2, h3, h4, h5] at h; simp [Option.orElse] at h
          · rw [h1, h2, h3, h4, h5] at h
            simp [Option.orElse] at h
            subst h
            obtain ⟨ha, hb, _⟩ := tryPair1_eq (Or.inr rfl) h5
            exact ⟨ha, hb⟩
        · rw [h1, h2, h3, h4] at h
          simp [Option.orElse] at h
          subst h
          obtain ⟨ha, hb, _⟩ := tryPair1_eq (Or.inl rfl) h4
          exact ⟨ha, hb⟩
      · rw [h1, h2, h3] at h
        simp [Option.orElse] at h
        subst h
        obtain ⟨ha, hb, _⟩ := tryPair2_eq (Or.inr rfl) h3
        exact ⟨ha, hb⟩
    · rw [h1, h2] at h
      simp [Option.orElse] at h
      subst h
      obtain ⟨ha, hb, _⟩ := tryPair2_eq (Or.inl rfl) h2
      exact ⟨ha, hb⟩
  · rw [h1] at h
    simp [Option.orElse] at h
    subst h
    exact tryLink_eq h1

theorem RawMatch.part_ne_nil (r : RawMatch) : r.part ≠ [] := by
  cases r <;> simp [RawMatch.part]

theorem findMatch_eq :
    ∀ {s pre : List Char} {r : RawMatch} {rest : List Char},
      findMatch s = some (pre, r, rest) →
      s = pre ++ r.part ++ rest ∧ goodRaw r := by
  intro s
  induction s with
  | nil => intro pre r rest h; simp [findMatch] at h
  | cons a s' ih =>
    intro pre r rest h
    rw [findMatch] at h
    match hm : matchAt (a :: s') with
    | some (r0, rem0) =>
      rw [hm] at h
      simp at h
      obtain ⟨hp, hr, hrest⟩ := h
      subst hp; subst hr; subst hrest
      obtain ⟨hs, hg⟩ := matchAt_eq hm
      exact ⟨by simpa using hs, hg⟩
    | none =>
      rw [hm] at h
      simp at h
      obtain ⟨p1, hfm, rfl⟩ := h
      obtain ⟨hs, hg⟩ := ih hfm
      exact ⟨by simp [hs], hg⟩

theorem findMatch_rest_lt {s pre : List Char} {r : RawMatch} {rest : List Char}
    (h : findMatch s = some (pre, r, rest)) : rest.length < s.length := by
  obtain ⟨hs, _⟩ := findMatch_eq h
  have hp := RawMatch.part_ne_nil r
  rw [hs]
  simp [List.length_append]
  cases hpp : r.part with
  | nil => exact absurd hpp hp
  | cons x xs => simp [hpp]; omega

/-- The scanning loop of `processFormattedText`: text before each match
becomes a plain run when nonempty, each match contributes its styled run,
and the text after the last match becomes a trailing plain run. -/
def scanAux (s : List Char) : List Run :=
  match h : findMatch s with
  | none => if s.isEmpty then [] else [Run.tr s defProps]
  | some (pre, r, rest) =>
    (if pre.isEmpty then [] else [Run.tr pre defProps]) ++
      (classify r).toList ++ scanAux rest
termination_by s.length
decreasing_by exact findMatch_rest_lt h

/-- `processFormattedText`: the scan, plus the fallback pushing the whole
text as a single plain run when no runs were produced. -/
def processFormattedText (text : List Char) : List Run :=
  let result := scanAux text
  if result.isEmpty then [Run.tr text defProps] else result

/-- Spec-side description of the round-trip target: the input text with
each match's marker characters removed (keeping the hyperlink display
text and dropping the URL apparatus). -/
def stripMarkers (s : List Char) : List Char :=
  match h : findMatch s with
  | none => s
  | some (pre, r, rest) => pre ++ r.kept ++ stripMarkers rest
termination_by s.length
decreasing_by exact findMatch_rest_lt h

theorem textConcat_append (l1 l2 : List Run) :
    textConcat (l1 ++ l2) = textConcat l1 ++ textConcat l2 := by
  induction l1 with
  | nil => simp [textConcat]
  | cons r rest ih => simp [textConcat, ih]

theorem midSlice_sandwich (n : Nat) (p X s : List Char)
    (hp : p.length = n) (hs : s.length = n) :
    midSlice n (p ++ X ++ s) = X := by
  have hd : (p ++ X ++ s).drop n = X ++ s := by
    rw [List.append_assoc, ← hp, List.drop_left]
  have hl : (p ++ X ++ s).length - 2 * n = X.length := by
    simp [List.length_append, hp, hs]
    omega
  rw [midSlice, hd, hl, List.take_left]

theorem trailsWith_concat2 (c : Char) (l : List Char) :
    trailsWith [c, c] (l ++ [c, c]) = true := by
  simp [trailsWith, leadsWith]

theorem trailsWith_concat1 (c : Char) (l : List Char) :
    trailsWith [c] (l ++ [c]) = true := by
  simp [trailsWith, leadsWith]

theorem classify_pair2_tilde (i : List Char) :
    classify (.pair2 '~' i) = some (.tr i strikeProps) := by
  have hpart : (RawMatch.pair2 '~' i).part = ['~', '~'] ++ i ++ ['~', '~'] := by
    simp [RawMatch.part]
  have h1 : leadsWith ['~', '~'] (['~', '~'] ++ i ++ ['~', '~']) = true := by
    simp [leadsWith]
  have h2 : trailsWith ['~', '~'] (['~', '~'] ++ i ++ ['~', '~']) = true := by
    rw [show (['~', '~'] ++ i ++ ['~', '~'] : List Char) = (['~', '~'] ++ i) ++ ['~', '~'] by
      simp]
    exact trailsWith_concat2 _ _
  have hm : midSlice 2 (['~', '~'] ++ i ++ ['~', '~']) = i :=
    midSlice_sandwich 2 ['~', '~'] i ['~', '~'] rfl rfl
  simp only [classify, hpart, classifyChain, h1, h2, hm, Bool.and_self, if_true]

theorem classify_pair2_star (i : List Char) :
    classify (.pair2 '*' i) = some (.tr i boldProps) := by
  have hts : (('~' : Char) == '*') = false := by decide
  have hpart : (RawMatch.pair2 '*' i).part = ['*', '*'] ++ i ++ ['*', '*'] := by
    simp [RawMatch.part]
  have h0 : leadsWith ['~', '~'] (['*', '*'] ++ i ++ ['*', '*']) = false := by
    simp [leadsWith, hts]
  have h1 : leadsWith ['*', '*'] (['*', '*'] ++ i ++ ['*', '*']) = true := by
    simp [leadsWith]
  have h2 : trailsWith ['*', '*'] (['*', '*'] ++ i ++ ['*', '*']) = true := by
    rw [show (['*', '*'] ++ i ++ ['*', '*'] : List Char) = (['*', '*'] ++ i) ++ ['*', '*'] by
      simp]
    exact trailsWith_concat2 _ _
  have hm : midSlice 2 (['*', '*'] ++ i ++ ['*', '*']) = i :=
    midSlice_sandwich 2 ['*', '*'] i ['*', '*'] rfl rfl
  simp only [classify, hpart, classifyChain, h0, h1, h2, hm, Bool.and_self,
    Bool.false_and, if_true, if_false, Bool.false_eq_true]

theorem classify_pair1_star_nil :
    classify (.pair1 '*' []) = some (.tr [] boldProps) := by
  decide

theorem classify_pair1_star_cons (x : Char) (xs : List Char) (hx : x ≠ '*') :
    classify (.pair1 '*' (x :: xs)) = some (.tr (x :: xs) italProps) := by
  have hts : (('~' : Char) == '*') = false := by decide
  have hsx : (('*' : Char) == x) = false := by
    simp [BEq.beq]
    exact fun h => hx h.symm
  have hpart : (RawMatch.pair1 '*' (x :: xs)).part = ['*'] ++ (x :: xs) ++ ['*'] := by
    simp [RawMatch.part]
  have h0 : leadsWith ['~', '~'] (['*'] ++ (x :: xs) ++ ['*']) = false := by
    simp [leadsWith, hts]
  have h1 : leadsWith ['*', '*'] (['*'] ++ (x :: xs) ++ ['*']) = false := by
    simp [leadsWith, hsx]
  have h2 : leadsWith ['*'] (['*'] ++ (x :: xs) ++ ['*']) = true := by
    simp [leadsWith]
  have h3 : trailsWith ['*'] (['*'] ++ (x :: xs) ++ ['*']) = true := by
    rw [show (['*'] ++ (x :: xs) ++ ['*'] : List Char) = ('*' :: x :: xs) ++ ['*'] by simp]
    exact trailsWith_concat1 _ _
  have hm : midSlice 1 (['*'] ++ (x :: xs) ++ ['*']) = x :: xs :=
    midSlice_sandwich 1 ['*'] (x :: xs) ['*'] rfl rfl
  simp only [classify, hpart, classifyChain, h0, h1, h2, h3, hm, Bool.false_and,
    Bool.true_and, Bool.and_true, Bool.not_false, if_true, if_false, Bool.false_eq_true]

theorem classify_pair1_code (i : List Char) :
    classify (.pair1 backtick i) = some (.tr i codeProps) := by
  have ht : (('~' : Char) == backtick) = false := by decide
  have hs : (('*' : Char) == backtick) = false := by decide
  have hpart : (RawMatch.pair1 backtick i).part = [backtick] ++ i ++ [backtick] := by
    simp [RawMatch.part]
  have h0 : leadsWith ['~', '~'] ([backtick] ++ i ++ [backtick]) = false := by
    simp [leadsWith, ht]
  have h1 : leadsWith ['*', '*'] ([backtick] ++ i ++ [backtick]) = false := by
    simp [leadsWith, hs]
  have h2 : leadsWith ['*'] ([backtick] ++ i ++ [backtick]) = false := by
    simp [leadsWith, hs]
  have h3 : leadsWith [backtick] ([backtick] ++ i ++ [backtick]) = true := by
    simp [leadsWith]
  have h4 : trailsWith [backtick] ([backtick] ++ i ++ [backtick]) = true := by
    rw [show ([backtick] ++ i ++ [backtick] : List Char) = (backtick :: i) ++ [backtick] by
      simp]
    exact trailsWith_concat1 _ _
  have hm : midSlice 1 ([backtick] ++ i ++ [backtick]) = i :=
    midSlice_sandwich 1 [backtick] i [backtick] rfl rfl
  simp only [classify, hpart, classifyChain, h0, h1, h2, h3, h4, hm, Bool.false_and,
    Bool.and_self, if_true, if_false, Bool.false_eq_true]

theorem classify_link (t u : List Char) (ht : t ≠ []) (hu : u ≠ []) :
    classify (.link t u) = some (.link t u) := by
  rw [classify]
  rw [if_neg]
  simp [ht, hu]

theorem classify_kept {r : RawMatch} (hg : goodRaw r) :
    ∃ p, classify r = some p ∧ runText p = r.kept := by
  match r with
  | .link t u =>
    obtain ⟨ht, hu⟩ := hg
    exact ⟨.link t u, classify_link t u ht hu, rfl⟩
  | .pair2 c i =>
    rcases hg with hc | hc
    · subst hc; exact ⟨.tr i strikeProps, classify_pair2_tilde i, rfl⟩
    · subst hc; exact ⟨.tr i boldProps, classify_pair2_star i, rfl⟩
  | .pair1 c i =>
    obtain ⟨hc, hi⟩ := hg
    rcases hc with hc | hc
    · subst hc
      match i with
      | [] => exact ⟨.tr [] boldProps, classify_pair1_star_nil, rfl⟩
      | x :: xs =>
        have hx : x ≠ '*' := hi x (by simp)
        exact ⟨.tr (x :: xs) italProps, classify_pair1_star_cons x xs hx, rfl⟩
    · subst hc
      exact ⟨.tr i codeProps, classify_pair1_code i, rfl⟩

theorem scanAux_textConcat (s : List Char) :
    textConcat (scanAux s) = stripMarkers s := by
  induction s using scanAux.induct with
  | case1 s h hs =>
    rw [scanAux, stripMarkers]
    rw [h]
    simp at hs
    simp [hs, textConcat]
  | case2 s h hs =>
    rw [scanAux, stripMarkers]
    rw [h]
    simp [hs, textConcat, runText]
  | case3 s pre r rest h ih =>
    rw [scanAux, stripMarkers]
    rw [h]
    obtain ⟨hs, hg⟩ := findMatch_eq h
    obtain ⟨p, hp, hk⟩ := classify_kept hg
    simp only
    rw [hp]
    by_cases hpre : pre.isEmpty
    · simp only [hpre, if_true]
      simp [textConcat, ih, hk]
      simp at hpre
      simp [hpre]
    · simp only [hpre, if_false]
      simp [textConcat_append, textConcat, ih, hk]
      rfl

/-- ASCII lowercasing (`String.prototype.toLowerCase` restricted to the
ASCII range, which covers the URL and header comparisons made here). -/
def lowerChar (c : Char) : Char :=
  if 'A' ≤ c ∧ c ≤ 'Z' then Char.ofNat (c.toNat + 32) else c

def lowerL (l : List Char) : List Char := l.map lowerChar

/-- Substring containment (`String.prototype.includes`). -/
def hasSub (pat : List Char) : List Char → Bool
| [] => leadsWith pat []
| a :: t => leadsWith pat (a :: t) || hasSub pat t

/-- The four image formats accepted for embedding. -/
inductive ImageType
| png
| jpg
| gif
| bmp
deriving DecidableEq, Repr, Inhabited

/-- A successfully fetched image: bytes, dimensions and format. -/
structure Img where
  data : List Nat
  width : Nat
  height : Nat
  type : ImageType
deriving DecidableEq, Repr

/-- Outcome of `fetch(url)` in the surrounding environment: the call
throws, or yields a response with its ok flag, its optional content-type
header, whether reading the body throws, and the body bytes. -/
inductive FetchOutcome
| throws
| response (ok : Bool) (contentType : Option (List Char)) (bodyThrows : Bool) (body : List Nat)

/-- The network environment a conversion runs in. -/
def Env := (List Char) → FetchOutcome

/-- `detectImageType`: URL substring checks first (png, jpg/jpeg, gif,
bmp in order), then content-type substring checks, then the PNG default. -/
def detectImageType (url contentType : List Char) : ImageType :=
  let urlLower := lowerL url
  if hasSub (".png".toList) urlLower then .png
  else if hasSub (".jpg".toList) urlLower || hasSub (".jpeg".toList) urlLower then .jpg
  else if hasSub (".gif".toList) urlLower then .gif
  else if hasSub (".bmp".toList) urlLower then .bmp
  else
    let ctLower := lowerL contentType
    if hasSub ("image/png".toList) ctLower then .png
    else if hasSub ("image/jpeg".toList) ctLower || hasSub ("image/jpg".toList) ctLower then .jpg
    else if hasSub ("image/gif".toList) ctLower then .gif
    else if hasSub ("image/bmp".toList) ctLower then .bmp
    else .png

/-- The body of `fetchImage`'s try block, instrumented: the first
component is its result (`Except.error` models a thrown exception
reaching the catch), the second records whether `fetch` was invoked.
Order of checks follows the source: the `.svg` URL test before any
fetch, then `response.ok`, then the content-type svg test, then the
format detection and body read. -/
def fetchImageRun (env : Env) (url : List Char) : Except Unit (Option Img) × Bool :=
  if hasSub (".svg".toList) (lowerL url) then (.ok none, false)
  else
    match env url with
    | .throws => (.error (), true)
    | .response ok ct bodyThrows body =>
      if !ok then (.ok none, true)
      else
        let contentType := ct.getD []
        if hasSub ("svg".toList) contentType then (.ok none, true)
        else if bodyThrows then (.error (), true)
        else (.ok (some ⟨body, 400, 300, detectImageType url contentType⟩), true)

/-- `fetchImage` including its catch-all: a thrown exception is caught
and converted to `null`, so every failure path yields `none`. -/
def fetchImage (env : Env) (url : List Char) : Option Img :=
  match (fetchImageRun env url).1 with
  | .error _ => none
  | .ok r => r

mutual
/-- A lexer list item: task flag, checked flag, raw text, sub-tokens
(the converter only inspects nested list tokens among them). -/
inductive LItem
| mk (task : Bool) (checked : Bool) (text : List Char) (subs : List LSub)
/-- A sub-token of a list item: a nested list token, or any other token
(skipped by the nested-list walk). -/
inductive LSub
| listTok (ordered : Bool) (items : List LItem)
| otherTok
end

/-- A list-item paragraph as pushed by `processListItems`: its runs, the
ordered/bullet choice, the numbering/bullet level, and whether it got
the first-item spacing (`before: 80` instead of `40`). -/
structure LIB where
  runs : List Run
  ordered : Bool
  level : Nat
  first : Bool
deriving DecidableEq, Repr

/-- The run list of one list item: the checkbox glyph for task items,
then the formatted item text. -/
def itemRuns (task checked : Bool) (text : List Char) : List Run :=
  (if task then
    [Run.tr (if checked then "☑ ".toList else "☐ ".toList) defProps]
  else []) ++ processFormattedText text

mutual
/-- The item loop of `processListItems`: each item contributes its
paragraph, then its nested lists (depth-first, before the next sibling).
`num` models the `itemNum` counter seeded from `startNum` and
incremented per item; it flows into no emitted block. -/
def plItems : List LItem → Bool → Nat → Nat → Bool → List LIB
| [], _, _, _, _ => []
| .mk task checked text subs :: rest, ordered, level, num, first =>
  LIB.mk (itemRuns task checked text) ordered level first
    :: (plSubs subs level ++ plItems rest ordered level (num + 1) false)
/-- The walk over an item's sub-tokens: every nested list token recurses
with `level + 1` and the default `startNum = 1`; other tokens are
skipped. -/
def plSubs : List LSub → Nat → List LIB
| [], _ => []
| .listTok o items :: rest, level =>
  plItems items o (level + 1) 1 (level + 1 == 0) ++ plSubs rest level
| .otherTok :: rest, level => plSubs rest level
end

/-- `processListItems(items, ordered, level, startNum = 1)`: the
`isFirstItem` flag is initialised to `level === 0`. -/
def processListItems (items : List LItem) (ordered : Bool) (level : Nat)
    (startNum : Nat) : List LIB :=
  plItems items ordered level startNum (level == 0)

/-- A token inside a blockquote: only paragraph sub-tokens are rendered. -/
inductive QSub
| qpara (text : List Char)
| qother
deriving Repr

/-- Lexer tokens, by kind, carrying the fields the converter reads. -/
inductive Tok
| heading (depth : Nat) (text : List Char)
| paragraph (text : List Char)
| list (ordered : Bool) (items : List LItem)
| blockquote (tokens : List QSub)
| codeTok (text : List Char)
| hr
| tableTok (header : List (List Char)) (rows : List (List (List Char)))
| space
| image (href : List Char) (title : Option (List Char)) (text : List Char)
| unknown

/-- `token.type` as compared by the dispatcher. -/
def Tok.ty : Tok → String
| .heading _ _ => "heading"
| .paragraph _ => "paragraph"
| .list _ _ => "list"
| .blockquote _ => "blockquote"
| .codeTok _ => "code"
| .hr => "hr"
| .tableTok _ _ => "table"
| .space => "space"
| .image _ _ _ => "image"
| .unknown => "unknown"

/-- A document child pushed by the converter, one constructor per push
site. -/
inductive Block
| heading (depth : Nat) (text : List Char)
| para (runs : List Run)
| listItem (li : LIB)
| quote (runs : List Run)
| codeBlock (text : List Char)
| rule
| table (header : List (List Run)) (rows : List (List (List Run)))
| spacer
| image (img : Img) (titleAtt descAtt nameAtt : List Char)
| caption (text : List Char)
deriving DecidableEq, Repr

/-- JavaScript `a || b` on strings (empty string is falsy). -/
def orD (a b : List Char) : List Char := if a.isEmpty then b else a

/-- JavaScript `a || b` where `a` may be undefined. -/
def jsOr (a : Option (List Char)) (b : List Char) : List Char :=
  match a with
  | some s => orD s b
  | none => b

/-- The could-not-embed fallback paragraph: picture glyph, hyperlink
with the alt text (or "Image"), and the gray marker run. -/
def fallbackPara (altText url : List Char) : Block :=
  .para [Run.tr ("🖼 ".toList) defProps,
         Run.link (orD altText ("Image".toList)) url,
         Run.tr (" (could not embed)".toList) markerProps]

/-- The anchored image-only test on a paragraph's text:
`/^!\[([^\]]*)\]\(([^)]+)\)$/` (alt may be empty, URL may not, nothing
may follow the closing parenthesis). -/
def parseImageOnly (s : List Char) : Option (List Char × List Char) :=
  match s with
  | '!' :: '[' :: rest =>
    match splitAtChar ']' rest with
    | some (alt, rest2) =>
      match rest2 with
      | '(' :: rest3 =>
        match splitAtChar ')' rest3 with
        | some (url, rest4) =>
          if url.isEmpty then none
          else if rest4.isEmpty then some (alt, url) else none
        | none => none
      | _ => none
    | none => none
  | _ => none

/-- The blockquote branch: each paragraph sub-token becomes an indented,
left-bordered paragraph of formatted runs; other sub-tokens are ignored. -/
def quoteBlocks : List QSub → List Block
| [] => []
| .qpara t :: rest => .quote (processFormattedText t) :: quoteBlocks rest
| .qother :: rest => quoteBlocks rest

/-- The per-token switch of `convertMarkdownToDocx`: the blocks pushed
for one token (spacing heuristics excluded). -/
def tokBlocks (env : Env) : Tok → List Block
| .heading d t => [.heading d t]
| .paragraph t =>
  match parseImageOnly t with
  | some (alt, url) =>
    match fetchImage env url with
    | some img =>
      .image img (orD alt ("Image".toList)) (orD alt ("Embedded image".toList))
          (orD alt ("image".toList))
        :: (if alt.isEmpty then [] else [.caption alt])
    | none => [fallbackPara alt url]
  | none => [.para (processFormattedText t)]
| .list ordered items => (processListItems items ordered 0 1).map Block.listItem
| .blockquote toks => quoteBlocks toks
| .codeTok t => [.codeBlock t]
| .hr => [.rule]
| .tableTok header rows =>
  [.table (header.map processFormattedText)
    (rows.map (fun row => row.map processFormattedText))]
| .space => []
| .image href title text =>
  match fetchImage env href with
  | some img =>
    .image img (jsOr title (orD text ("Image".toList)))
        (orD text ("Embedded image".toList)) (orD text ("image".toList))
      :: (if text.isEmpty then [] else [.caption text])
  | none => [fallbackPara text href]
| .unknown => []

/-- One iteration of the dispatcher loop: the inter-kind spacing
heuristic (emitting at most one Spacer on a kind change into a space
token while `consecutiveBreaks + 1 ≤ 1`), the per-case reset of
`consecutiveBreaks`, and the token's own blocks. -/
def tokStep (env : Env) (last : Option String) (breaks : Nat) (t : Tok) :
    List Block × Nat :=
  let sp : List Block × Nat :=
    match last with
    | some lt =>
      if lt ≠ t.ty then
        if t.ty = "space" then
          (if breaks + 1 ≤ 1 then [Block.spacer] else [], breaks + 1)
        else ([], 0)
      else ([], breaks)
    | none => ([], breaks)
  let b2 := if t.ty = "space" then sp.2 else 0
  (sp.1 ++ tokBlocks env t, b2)

/-- The dispatcher loop over the token stream, carrying `lastTokenType`
and `consecutiveBreaks`. -/
def convertGo (env : Env) : Option String → Nat → List Tok → List Block
| _, _, [] => []
| last, breaks, t :: rest =>
  let step := tokStep env last breaks t
  step.1 ++ convertGo env (some t.ty) step.2 rest

/-- `convertMarkdownToDocx`'s token pass: the ordered block list built
from the token stream. -/
def convertTokens (env : Env) (toks : List Tok) : List Block :=
  convertGo env none 0 toks

/-- The markdown code-fence preprocessing at the top of
`convertMarkdownToGoogleDoc`: strip a leading ```markdown fence (or,
failing that, a bare ``` fence) together with a trailing ```; JavaScript
`substring(a, len - 3)` is `drop a` then `take (len - 3 - a)`. -/
def stripWrap (md : List Char) : List Char :=
  if leadsWith ("```markdown\n".toList) md && trailsWith ("```".toList) md then
    (md.drop 12).take (md.length - 3 - 12)
  else if leadsWith ("```\n".toList) md && trailsWith ("```".toList) md then
    (md.drop 4).take (md.length - 3 - 4)
  else md

/-- One inline construct of claim C2, with its body text. -/
inductive Construct
| bold (b : List Char)
| italic (b : List Char)
| strike (b : List Char)
| codeSpan (b : List Char)
| hyper (t u : List Char)

/-- Surface syntax of a construct. -/
def Construct.render : Construct → List Char
| .bold b => '*' :: '*' :: b ++ ['*', '*']
| .italic b => '*' :: b ++ ['*']
| .strike b => '~' :: '~' :: b ++ ['~', '~']
| .codeSpan b => backtick :: b ++ [backtick]
| .hyper t u => '[' :: t ++ ']' :: '(' :: u ++ [')']

/-- The regex match a construct produces at its own position. -/
def Construct.rawOf : Construct → RawMatch
| .bold b => .pair2 '*' b
| .italic b => .pair1 '*' b
| .strike b => .pair2 '~' b
| .codeSpan b => .pair1 backtick b
| .hyper t u => .link t u

/-- The single styled run a construct turns into. -/
def Construct.spanRun : Construct → Run
| .bold b => .tr b boldProps
| .italic b => .tr b italProps
| .strike b => .tr b strikeProps
| .codeSpan b => .tr b codeProps
| .hyper t u => .link t u

/-- A character that can start no match and extend no delimiter. -/
def plainChar (c : Char) : Prop :=
  c ≠ '*' ∧ c ≠ '~' ∧ c ≠ backtick ∧ c ≠ '['

/-- A clean construct body: nonempty, free of marker characters and of
line terminators. -/
def bodyOk (b : List Char) : Prop :=
  b ≠ [] ∧ ∀ c ∈ b, c ≠ '*' ∧ c ≠ '~' ∧ c ≠ backtick ∧ c ≠ '[' ∧ isDot c = true

/-- Well-formedness of a construct occurrence per claim C2. -/
def Construct.ok : Construct → Prop
| .bold b => bodyOk b
| .italic b => bodyOk b
| .strike b => bodyOk b
| .codeSpan b => bodyOk b
| .hyper t u => t ≠ [] ∧ (∀ c ∈ t, c ≠ ']') ∧ u ≠ [] ∧ (∀ c ∈ u, c ≠ ')')

/-- The classification procedure exactly as claim C5 words it: inspect
the URL SUFFIX (png, jpg/jpeg, gif, bmp in order), then the
content-type, then default to png. -/
def detectImageTypeSuffixClaim (url contentType : List Char) : ImageType :=
  let urlLower := lowerL url
  if trailsWith (".png".toList) urlLower then .png
  else if trailsWith (".jpg".toList) urlLower || trailsWith (".jpeg".toList) urlLower then .jpg
  else if trailsWith (".gif".toList) urlLower then .gif
  else if trailsWith (".bmp".toList) urlLower then .bmp
  else
    let ctLower := lowerL contentType
    if hasSub ("image/png".toList) ctLower then .png
    else if hasSub ("image/jpeg".toList) ctLower || hasSub ("image/jpg".toList) ctLower then .jpg
    else if hasSub ("image/gif".toList) ctLower then .gif
    else if hasSub ("image/bmp".toList) ctLower then .bmp
    else .png

def isSpacer : Block → Bool
| .spacer => true
| _ => false

/-- Number of Spacer blocks in an emitted block list. -/
def countSpacer (l : List Block) : Nat := l.countP isSpacer

/-- Number of maximal runs of space tokens, given whether the stream is
already inside such a run. -/
def countSpaceRuns : Bool → List Tok → Nat
| _, [] => 0
| inS, t :: rest =>
  if t.ty = "space" then
    if inS then countSpaceRuns true rest else 1 + countSpaceRuns true rest
  else countSpaceRuns false rest

/-- Modelled from the spec: the external lexer turns the input
`"- [x] Done"` into a single unordered list token whose one item carries
`task = true`, `checked = true`, text `"Done"` and no sub-tokens. -/
def lexDashXDone : List Tok :=
  [Tok.list false [LItem.mk true true ("Done".toList) []]]

/-- An environment in which every fetch throws. -/
def envThrows : Env := fun _ => .throws

theorem leadsWith_refl_append (p r : List Char) : leadsWith p (p ++ r) = true := by
  induction p with
  | nil => simp [leadsWith]
  | cons a t ih => simp [leadsWith, ih]

theorem trailsWith_append_self (t l : List Char) : trailsWith t (l ++ t) = true := by
  rw [trailsWith, List.reverse_append]
  exact leadsWith_refl_append _ _

theorem leadsWith_exists {p l : List Char} (h : leadsWith p l = true) :
    ∃ r, l = p ++ r := by
  induction p generalizing l with
  | nil => exact ⟨l, rfl⟩
  | cons a t ih =>
    cases l with
    | nil => simp [leadsWith] at h
    | cons b bs =>
      simp only [leadsWith, Bool.and_eq_true, beq_iff_eq] at h
      obtain ⟨hab, h2⟩ := h
      obtain ⟨r, hr⟩ := ih h2
      exact ⟨r, by simp [hab, hr]⟩

theorem trailsWith_exists {p l : List Char} (h : trailsWith p l = true) :
    ∃ q, l = q ++ p := by
  rw [trailsWith] at h
  obtain ⟨r, hr⟩ := leadsWith_exists h
  refine ⟨r.reverse, ?_⟩
  have := congrArg List.reverse hr
  simpa using this

theorem hasSub_append_self (pat q : List Char) : hasSub pat (q ++ pat) = true := by
  induction q with
  | nil =>
    cases pat with
    | nil => simp [hasSub, leadsWith]
    | cons a t =>
      have h := leadsWith_refl_append (a :: t) []
      rw [List.append_nil] at h
      simp [hasSub, h]
  | cons a q' ih =>
    simp [hasSub, ih]

theorem hasSub_of_trailsWith {pat l : List Char} (h : trailsWith pat l = true) :
    hasSub pat l = true := by
  obtain ⟨q, hq⟩ := trailsWith_exists h
  rw [hq]
  exact hasSub_append_self pat q

theorem scanAux_eq_nil {s : List Char} (h : scanAux s = []) : s = [] := by
  rw [scanAux] at h
  rcases hm : findMatch s with _ | ⟨pre, r, rest⟩
  · rw [hm] at h
    by_cases hs : s.isEmpty
    · simpa using hs
    · simp [hs] at h
  · rw [hm] at h
    simp only at h
    obtain ⟨_, hg⟩ := findMatch_eq hm
    obtain ⟨p, hp, _⟩ := classify_kept hg
    rw [hp] at h
    simp at h

theorem processFormattedText_noMatch {s : List Char} (h : findMatch s = none) :
    processFormattedText s = [Run.tr s defProps] := by
  have hsc : scanAux s = if s.isEmpty then [] else [Run.tr s defProps] := by
    rw [scanAux, h]
  rw [processFormattedText]
  by_cases hs : s.isEmpty
  · have hs0 : s = [] := by simpa using hs
    subst hs0
    rw [hsc]
    simp
  · rw [hsc]
    simp [hs]

/-- C1: for every input text, concatenating the literal text of all
spans returned by the Inline Span Parser, in order, equals the input
text with the matched formatting marker characters removed (for a
hyperlink match, the surviving literal text is the display text). -/
theorem C1_span_roundtrip (s : List Char) :
    textConcat (processFormattedText s) = stripMarkers s := by
  rw [processFormattedText]
  by_cases h : (scanAux s).isEmpty
  · have hnil : scanAux s = [] := by simpa using h
    have hs : s = [] := scanAux_eq_nil hnil
    subst hs
    have hfm : findMatch ([] : List Char) = none := by decide
    rw [stripMarkers, hfm]
    simp [hnil, textConcat, runText]
  · simp only [h, if_false]
    exact scanAux_textConcat s

/-- C8: the Inline Span Parser is total and never yields an empty span
list — when no formatting marker matches, the whole input becomes
exactly one plain-text run — and each list item's run list built from it
is likewise nonempty. -/
theorem C8_parser_total_nonempty :
    (∀ s : List Char, processFormattedText s ≠ []) ∧
    (∀ s : List Char, findMatch s = none →
      processFormattedText s = [Run.tr s defProps]) ∧
    (∀ (task checked : Bool) (text : List Char), itemRuns task checked text ≠ []) := by
  refine ⟨?_, ?_, ?_⟩
  · intro s
    rw [processFormattedText]
    by_cases h : (scanAux s).isEmpty
    · simp [h]
    · simp only [h, if_false]
      simpa using h
  · intro s h
    exact processFormattedText_noMatch h
  · intro task checked text
    rw [itemRuns]
    intro h
    rcases List.append_eq_nil.mp h with ⟨_, h2⟩
    have : processFormattedText text ≠ [] := by
      rw [processFormattedText]
      by_cases hx : (scanAux text).isEmpty
      · simp [hx]
      · simp only [hx, if_false]
        simpa using hx
    exact this h2

theorem C8_witness :
    findMatch ("hello".toList) = none ∧
      processFormattedText ("hello".toList) = [Run.tr ("hello".toList) defProps] :=
  ⟨by decide, C8_parser_total_nonempty.2.1 ("hello".toList) (by decide)⟩

/-- C10: `convertMarkdownToGoogleDoc` strips a leading "```markdown"
fence (or, failing that, a bare "```" fence) together with the trailing
"```", converting only the inner content; every other string passes
through unchanged. -/
theorem C10_fence_strip :
    (∀ m : List Char,
      stripWrap (("```markdown\n".toList) ++ m ++ ("```".toList)) = m) ∧
    (∀ m : List Char,
      stripWrap (("```\n".toList) ++ m ++ ("```".toList)) = m) ∧
    (∀ md : List Char,
      ¬(leadsWith ("```markdown\n".toList) md = true ∧
          trailsWith ("```".toList) md = true) →
      ¬(leadsWith ("```\n".toList) md = true ∧
          trailsWith ("```".toList) md = true) →
      stripWrap md = md) := by
  refine ⟨?_, ?_, ?_⟩
  · intro m
    have hlead : leadsWith ("```markdown\n".toList)
        (("```markdown\n".toList) ++ m ++ ("```".toList)) = true := by
      rw [List.append_assoc]
      exact leadsWith_refl_append _ _
    have htrail : trailsWith ("```".toList)
        (("```markdown\n".toList) ++ m ++ ("```".toList)) = true :=
      trailsWith_append_self _ _
    rw [stripWrap, hlead, htrail]
    simp only [Bool.and_self, if_true]
    have hdrop : ((("```markdown\n".toList) ++ m ++ ("```".toList)).drop 12) =
        m ++ ("```".toList) := by
      rw [List.append_assoc]
      rw [show (12 : Nat) = ("```markdown\n".toList).length from by decide]
      exact List.drop_left _ _
    have hlen : (("```markdown\n".toList) ++ m ++ ("```".toList)).length - 3 - 12 =
        m.length := by
      simp [List.length_append]
    rw [hdrop, hlen, List.take_left]
  · intro m
    have hne : leadsWith ("```markdown\n".toList)
        (("```\n".toList) ++ m ++ ("```".toList)) = false := by
      have hshape : (("```\n".toList) ++ m ++ ("```".toList)) =
          backtick :: backtick :: backtick :: '\n' :: (m ++ ("```".toList)) := rfl
      have hpat : ("```markdown\n".toList) =
          backtick :: backtick :: backtick :: 'm' :: ("arkdown\n".toList) := rfl
      have hm : (('m' : Char) == '\n') = false := by decide
      rw [hshape, hpat]
      simp [leadsWith, hm]
    have hlead : leadsWith ("```\n".toList)
        (("```\n".toList) ++ m ++ ("```".toList)) = true := by
      rw [List.append_assoc]
      exact leadsWith_refl_append _ _
    have htrail : trailsWith ("```".toList)
        (("```\n".toList) ++ m ++ ("```".toList)) = true :=
      trailsWith_append_self _ _
    rw [stripWrap, hne, hlead, htrail]
    simp only [Bool.false_and, Bool.and_self, if_true, Bool.false_eq_true, if_false]
    have hdrop : ((("```\n".toList) ++ m ++ ("```".toList)).drop 4) =
        m ++ ("```".toList) := by
      rw [List.append_assoc]
      rw [show (4 : Nat) = ("```\n".toList).length from by decide]
      exact List.drop_left _ _
    have hlen : (("```\n".toList) ++ m ++ ("```".toList)).length - 3 - 4 =
        m.length := by
      simp [List.length_append]
    rw [hdrop, hlen, List.take_left]
  · intro md h1 h2
    have hb1 : (leadsWith ("```markdown\n".toList) md &&
        trailsWith ("```".toList) md) = false := by
      rw [Bool.and_eq_false_iff]
      by_cases hx : leadsWith ("```markdown\n".toList) md = true
      · right
        by_cases hy : trailsWith ("```".toList) md = true
        · exact absurd ⟨hx, hy⟩ h1
        · simpa using hy
      · left
        simpa using hx
    have hb2 : (leadsWith ("```\n".toList) md &&
        trailsWith ("```".toList) md) = false := by
      rw [Bool.and_eq_false_iff]
      by_cases hx : leadsWith ("```\n".toList) md = true
      · right
        by_cases hy : trailsWith ("```".toList) md = true
        · exact absurd ⟨hx, hy⟩ h2
        · simpa using hy
      · left
        simpa using hx
    rw [stripWrap, hb1, hb2]
    simp

theorem C10_witness :
    ¬(leadsWith ("```markdown\n".toList) ("plain text".toList) = true ∧
        trailsWith ("```".toList) ("plain text".toList) = true) ∧
    ¬(leadsWith ("```\n".toList) ("plain text".toList) = true ∧
        trailsWith ("```".toList) ("plain text".toList) = true) ∧
    stripWrap ("plain text".toList) = ("plain text".toList) :=
  ⟨by decide, by decide,
    C10_fence_strip.2.2 ("plain text".toList) (by decide) (by decide)⟩

/-- C4: for every URL ending in the SVG suffix, the Image Resolver
returns the not-embeddable signal immediately and performs no fetch. -/
theorem C4_svg_no_fetch (env : Env) (url : List Char)
    (h : trailsWith (".svg".toList) (lowerL url) = true) :
    fetchImageRun env url = (Except.ok none, false) ∧ fetchImage env url = none := by
  have hsub : hasSub (".svg".toList) (lowerL url) = true := hasSub_of_trailsWith h
  constructor
  · rw [fetchImageRun, if_pos hsub]
  · rw [fetchImage, fetchImageRun, if_pos hsub]

theorem C4_witness :
    trailsWith (".svg".toList) (lowerL ("http://x/Logo.SVG".toList)) = true ∧
      fetchImageRun envThrows ("http://x/Logo.SVG".toList) = (Except.ok none, false) ∧
      fetchImage envThrows ("http://x/Logo.SVG".toList) = none :=
  ⟨by decide,
    (C4_svg_no_fetch envThrows ("http://x/Logo.SVG".toList) (by decide)).1,
    (C4_svg_no_fetch envThrows ("http://x/Logo.SVG".toList) (by decide)).2⟩

theorem fetchImageRun_shape (env : Env) (url : List Char) :
    (fetchImageRun env url).1 = .error () ∨ (fetchImageRun env url).1 = .ok none ∨
    ∃ body t, (fetchImageRun env url).1 =
      .ok (some ⟨body, 400, 300, t⟩) := by
  by_cases h1 : hasSub ['.', 's', 'v', 'g'] (lowerL url) = true
  · right; left
    simp [fetchImageRun, h1]
  · rcases henv : env url with _ | ⟨ok, ct, bt, body⟩
    · left
      simp [fetchImageRun, h1, henv]
    · by_cases h2 : ok = true
      · by_cases h3 : hasSub ['s', 'v', 'g'] (ct.getD []) = true
        · right; left
          simp [fetchImageRun, h1, henv, h2, h3]
        · by_cases h4 : bt = true
          · left
            simp [fetchImageRun, h1, henv, h2, h3, h4]
          · right; right
            refine ⟨body, detectImageType url (ct.getD []), ?_⟩
            simp [fetchImageRun, h1, henv, h2, h3, h4]
      · right; left
        simp [fetchImageRun, h1, henv, h2]

def urlIndicated (url : List Char) : Bool :=
  hasSub (".png".toList) (lowerL url) || hasSub (".jpg".toList) (lowerL url) ||
    hasSub (".jpeg".toList) (lowerL url) || hasSub (".gif".toList) (lowerL url) ||
    hasSub (".bmp".toList) (lowerL url)

def ctIndicated (ct : List Char) : Bool :=
  hasSub ("image/png".toList) (lowerL ct) || hasSub ("image/jpeg".toList) (lowerL ct) ||
    hasSub ("image/jpg".toList) (lowerL ct) || hasSub ("image/gif".toList) (lowerL ct) ||
    hasSub ("image/bmp".toList) (lowerL ct)

/-- C5 counterexample: the code classifies by URL SUBSTRING (checked in
the order png, jpg/jpeg, gif, bmp), not by URL suffix: the URL
"photo.png.gif" ends in the gif suffix, so the claimed suffix-first
procedure yields gif, but `detectImageType` yields png. -/
theorem C5_counterexample :
    trailsWith (".gif".toList) (lowerL ("photo.png.gif".toList)) = true ∧
    detectImageTypeSuffixClaim ("photo.png.gif".toList) [] = ImageType.gif ∧
    detectImageType ("photo.png.gif".toList) [] = ImageType.png ∧
    ImageType.png ≠ ImageType.gif := by
  decide

/-- C5 (amended): classification inspects the URL for format-marker
substrings first, in the order png, jpg/jpeg, gif, bmp; if inconclusive
it inspects the content-type header, in the order image/png,
image/jpeg-or-jpg, image/gif, image/bmp, each able to decide the
format; if still inconclusive it returns png — so the result is always
one of the four formats — and every successfully embedded image carries
width 400 and height 300. -/
theorem C5_format_classification :
    (∀ url ct : List Char, hasSub (".png".toList) (lowerL url) = true →
        detectImageType url ct = .png) ∧
    (∀ url ct : List Char, hasSub (".png".toList) (lowerL url) = false →
        (hasSub (".jpg".toList) (lowerL url) || hasSub (".jpeg".toList) (lowerL url)) = true →
        detectImageType url ct = .jpg) ∧
    (∀ url ct : List Char, hasSub (".png".toList) (lowerL url) = false →
        hasSub (".jpg".toList) (lowerL url) = false →
        hasSub (".jpeg".toList) (lowerL url) = false →
        hasSub (".gif".toList) (lowerL url) = true →
        detectImageType url ct = .gif) ∧
    (∀ url ct : List Char, hasSub (".png".toList) (lowerL url) = false →
        hasSub (".jpg".toList) (lowerL url) = false →
        hasSub (".jpeg".toList) (lowerL url) = false →
        hasSub (".gif".toList) (lowerL url) = false →
        hasSub (".bmp".toList) (lowerL url) = true →
        detectImageType url ct = .bmp) ∧
    (∀ url ct : List Char, urlIndicated url = false →
        hasSub ("image/png".toList) (lowerL ct) = true →
        detectImageType url ct = .png) ∧
    (∀ url ct : List Char, urlIndicated url = false →
        hasSub ("image/png".toList) (lowerL ct) = false →
        (hasSub ("image/jpeg".toList) (lowerL ct) ||
          hasSub ("image/jpg".toList) (lowerL ct)) = true →
        detectImageType url ct = .jpg) ∧
    (∀ url ct : List Char, urlIndicated url = false →
        hasSub ("image/png".toList) (lowerL ct) = false →
        hasSub ("image/jpeg".toList) (lowerL ct) = false →
        hasSub ("image/jpg".toList) (lowerL ct) = false →
        hasSub ("image/gif".toList) (lowerL ct) = true →
        detectImageType url ct = .gif) ∧
    (∀ url ct : List Char, urlIndicated url = false →
        hasSub ("image/png".toList) (lowerL ct) = false →
        hasSub ("image/jpeg".toList) (lowerL ct) = false →
        hasSub ("image/jpg".toList) (lowerL ct) = false →
        hasSub ("image/gif".toList) (lowerL ct) = false →
        hasSub ("image/bmp".toList) (lowerL ct) = true →
        detectImageType url ct = .bmp) ∧
    (∀ url ct : List Char, urlIndicated url = false → ctIndicated ct = false →
        detectImageType url ct = .png) ∧
    (∀ url ct : List Char, detectImageType url ct = .png ∨
        detectImageType url ct = .jpg ∨ detectImageType url ct = .gif ∨
        detectImageType url ct = .bmp) ∧
    (∀ (env : Env) (url : List Char) (img : Img), fetchImage env url = some img →
        img.width = 400 ∧ img.height = 300) := by
  refine ⟨?_, ?_, ?_, ?_, ?_, ?_, ?_, ?_, ?_, ?_, ?_⟩
  · intro url ct h
    simp at h
    simp [detectImageType, h]
  · intro url ct h0 h1
    simp at h0 h1
    simp [detectImageType, h0, h1]
  · intro url ct h0 h1 h2 h3
    simp at h0 h1 h2 h3
    simp [detectImageType, h0, h1, h2, h3]
  · intro url ct h0 h1 h2 h3 h4
    simp at h0 h1 h2 h3 h4
    simp [detectImageType, h0, h1, h2, h3, h4]
  · intro url ct hu hc
    simp only [urlIndicated, Bool.or_eq_false_iff] at hu
    obtain ⟨⟨⟨⟨h0, h1⟩, h2⟩, h3⟩, h4⟩ := hu
    simp at h0 h1 h2 h3 h4 hc
    simp [detectImageType, h0, h1, h2, h3, h4, hc]
  · intro url ct hu c0 c1
    simp only [urlIndicated, Bool.or_eq_false_iff] at hu
    obtain ⟨⟨⟨⟨h0, h1⟩, h2⟩, h3⟩, h4⟩ := hu
    simp at h0 h1 h2 h3 h4 c0 c1
    simp [detectImageType, h0, h1, h2, h3, h4, c0, c1]
  · intro url ct hu c0 c1 c2 c3
    simp only [urlIndicated, Bool.or_eq_false_iff] at hu
    obtain ⟨⟨⟨⟨h0, h1⟩, h2⟩, h3⟩, h4⟩ := hu
    simp at h0 h1 h2 h3 h4 c0 c1 c2 c3
    simp [detectImageType, h0, h1, h2, h3, h4, c0, c1, c2, c3]
  · intro url ct hu c0 c1 c2 c3 c4
    simp only [urlIndicated, Bool.or_eq_false_iff] at hu
    obtain ⟨⟨⟨⟨h0, h1⟩, h2⟩, h3⟩, h4⟩ := hu
    simp at h0 h1 h2 h3 h4 c0 c1 c2 c3 c4
    simp [detectImageType, h0, h1, h2, h3, h4, c0, c1, c2, c3, c4]
  · intro url ct hu hc
    simp only [urlIndicated, Bool.or_eq_false_iff] at hu
    obtain ⟨⟨⟨⟨h0, h1⟩, h2⟩, h3⟩, h4⟩ := hu
    simp only [ctIndicated, Bool.or_eq_false_iff] at hc
    obtain ⟨⟨⟨⟨c0, c1⟩, c2⟩, c3⟩, c4⟩ := hc
    simp at h0 h1 h2 h3 h4 c0 c1 c2 c3 c4
    simp [detectImageType, h0, h1, h2, h3, h4, c0, c1, c2, c3, c4]
  · intro url ct
    rcases detectImageType url ct with _ | _ | _ | _
    · left; rfl
    · right; left; rfl
    · right; right; left; rfl
    · right; right; right; rfl
  · intro env url img h
    rw [fetchImage] at h
    rcases fetchImageRun_shape env url with hs | hs | ⟨body, t, hs⟩
    · rw [hs] at h
      simp at h
    · rw [hs] at h
      simp at h
    · rw [hs] at h
      simp only at h
      rw [← Option.some.inj h]
      exact ⟨rfl, rfl⟩

theorem C5_witness :
    hasSub (".png".toList) (lowerL ("photo.png.gif".toList)) = true ∧
      detectImageType ("photo.png.gif".toList) [] = ImageType.png ∧
      urlIndicated ("report.pdf".toList) = false ∧
      detectImageType ("report.pdf".toList) ("image/jpeg".toList) = ImageType.jpg ∧
      detectImageType ("report.pdf".toList) ("image/gif".toList) = ImageType.gif ∧
      detectImageType ("report.pdf".toList) ("image/bmp".toList) = ImageType.bmp ∧
      ctIndicated ("text/plain".toList) = false ∧
      detectImageType ("report.pdf".toList) ("text/plain".toList) = ImageType.png :=
  ⟨by decide,
    C5_format_classification.1 ("photo.png.gif".toList) [] (by decide),
    by decide,
    C5_format_classification.2.2.2.2.2.1 ("report.pdf".toList) ("image/jpeg".toList)
      (by decide) (by decide) (by decide),
    C5_format_classification.2.2.2.2.2.2.1 ("report.pdf".toList) ("image/gif".toList)
      (by decide) (by decide) (by decide) (by decide) (by decide),
    C5_format_classification.2.2.2.2.2.2.2.1 ("report.pdf".toList) ("image/bmp".toList)
      (by decide) (by decide) (by decide) (by decide) (by decide) (by decide),
    by decide,
    C5_format_classification.2.2.2.2.2.2.2.2.1 ("report.pdf".toList)
      ("text/plain".toList) (by decide) (by decide)⟩

/-- C3: the Image Resolver never lets a failure escape — the SVG-suffix
check, a fetch that throws, an unsuccessful response, an SVG
content-type, and a body read that throws all yield the not-embeddable
signal (null) — and for both the image token and the image-only
paragraph, a null resolution yields the fallback paragraph carrying a
hyperlink with the original alt text (or "Image") and the
" (could not embed)" marker. -/
theorem C3_fail_soft_fallback :
    (∀ (env : Env) (url : List Char), hasSub (".svg".toList) (lowerL url) = true →
        fetchImage env url = none) ∧
    (∀ (env : Env) (url : List Char), env url = .throws → fetchImage env url = none) ∧
    (∀ (env : Env) (url : List Char) (ct : Option (List Char)) (bt : Bool)
        (body : List Nat), env url = .response false ct bt body →
        fetchImage env url = none) ∧
    (∀ (env : Env) (url : List Char) (ct : Option (List Char)) (bt : Bool)
        (body : List Nat), env url = .response true ct bt body →
        hasSub ("svg".toList) (ct.getD []) = true → fetchImage env url = none) ∧
    (∀ (env : Env) (url : List Char) (ct : Option (List Char)) (body : List Nat),
        env url = .response true ct true body → fetchImage env url = none) ∧
    (∀ (env : Env) (href : List Char) (title : Option (List Char)) (text : List Char),
        fetchImage env href = none →
        tokBlocks env (.image href title text) = [fallbackPara text href]) ∧
    (∀ (env : Env) (text alt url : List Char),
        parseImageOnly text = some (alt, url) → fetchImage env url = none →
        tokBlocks env (.paragraph text) = [fallbackPara alt url]) := by
  refine ⟨?_, ?_, ?_, ?_, ?_, ?_, ?_⟩
  · intro env url h
    simp at h
    simp [fetchImage, fetchImageRun, h]
  · intro env url h
    by_cases h1 : hasSub ['.', 's', 'v', 'g'] (lowerL url) = true
    · simp [fetchImage, fetchImageRun, h1]
    · simp [fetchImage, fetchImageRun, h1, h]
  · intro env url ct bt body h
    by_cases h1 : hasSub ['.', 's', 'v', 'g'] (lowerL url) = true
    · simp [fetchImage, fetchImageRun, h1]
    · simp [fetchImage, fetchImageRun, h1, h]
  · intro env url ct bt body h hct
    simp at hct
    by_cases h1 : hasSub ['.', 's', 'v', 'g'] (lowerL url) = true
    · simp [fetchImage, fetchImageRun, h1]
    · simp [fetchImage, fetchImageRun, h1, h, hct]
  · intro env url ct body h
    by_cases h1 : hasSub ['.', 's', 'v', 'g'] (lowerL url) = true
    · simp [fetchImage, fetchImageRun, h1]
    · by_cases h3 : hasSub ['s', 'v', 'g'] (ct.getD []) = true
      · simp [fetchImage, fetchImageRun, h1, h, h3]
      · simp [fetchImage, fetchImageRun, h1, h, h3]
  · intro env href title text h
    simp [tokBlocks, h]
  · intro env text alt url hpio h
    simp [tokBlocks, hpio, h]

theorem C3_witness :
    fetchImage envThrows ("http://a/b.png".toList) = none ∧
      tokBlocks envThrows (Tok.image ("http://a/b.png".toList) none ("pic".toList)) =
        [fallbackPara ("pic".toList) ("http://a/b.png".toList)] :=
  ⟨C3_fail_soft_fallback.2.1 envThrows ("http://a/b.png".toList) rfl,
    C3_fail_soft_fallback.2.2.2.2.2.1 envThrows ("http://a/b.png".toList) none
      ("pic".toList) (by decide)⟩

theorem ty_space {t : Tok} (h : t.ty = "space") : t = Tok.space := by
  cases t <;> first | rfl | simp [Tok.ty] at h

theorem countSpacer_quoteBlocks (l : List QSub) : countSpacer (quoteBlocks l) = 0 := by
  induction l with
  | nil => simp [quoteBlocks, countSpacer]
  | cons q rest ih =>
    cases q with
    | qpara t =>
      simp only [quoteBlocks, countSpacer, List.countP_cons] at ih ⊢
      simp [isSpacer, ih]
    | qother =>
      simpa [quoteBlocks] using ih

theorem countSpacer_tokBlocks (env : Env) (t : Tok) :
    countSpacer (tokBlocks env t) = 0 := by
  cases t with
  | heading d txt => simp [tokBlocks, countSpacer, isSpacer]
  | paragraph txt =>
    rcases hp : parseImageOnly txt with _ | ⟨alt, url⟩
    · simp [tokBlocks, hp, countSpacer, isSpacer]
    · rcases hf : fetchImage env url with _ | img
      · simp [tokBlocks, hp, hf, countSpacer, isSpacer, fallbackPara]
      · by_cases ha : alt.isEmpty
        · simp [tokBlocks, hp, hf, ha, countSpacer, isSpacer]
        · simp [tokBlocks, hp, hf, ha, countSpacer, isSpacer]
  | list o items =>
    simp only [tokBlocks, countSpacer]
    rw [List.countP_eq_zero]
    intro b hb
    rw [List.mem_map] at hb
    obtain ⟨li, _, hbl⟩ := hb
    rw [← hbl]
    simp [isSpacer]
  | blockquote toks => simpa [tokBlocks] using countSpacer_quoteBlocks toks
  | codeTok txt => simp [tokBlocks, countSpacer, isSpacer]
  | hr => simp [tokBlocks, countSpacer, isSpacer]
  | tableTok hdr rows => simp [tokBlocks, countSpacer, isSpacer]
  | space => simp [tokBlocks, countSpacer]
  | image href title txt =>
    rcases hf : fetchImage env href with _ | img
    · simp [tokBlocks, hf, countSpacer, isSpacer, fallbackPara]
    · by_cases ht : txt.isEmpty
      · simp [tokBlocks, hf, ht, countSpacer, isSpacer]
      · simp [tokBlocks, hf, ht, countSpacer, isSpacer]
  | unknown => simp [tokBlocks, countSpacer]

theorem convertGo_spacer_le (env : Env) (toks : List Tok) :
    ∀ (last : Option String) (breaks : Nat) (inS : Bool),
      (last = some "space" ↔ inS = true) →
      countSpacer (convertGo env last breaks toks) ≤ countSpaceRuns inS toks := by
  induction toks with
  | nil => intro last breaks inS hin; simp [convertGo, countSpacer, countSpaceRuns]
  | cons t rest ih =>
    intro last breaks inS hin
    have key : countSpacer (convertGo env last breaks (t :: rest)) =
        countSpacer (tokStep env last breaks t).1 +
          countSpacer (convertGo env (some t.ty) (tokStep env last breaks t).2 rest) := by
      rw [convertGo]
      simp [countSpacer, List.countP_append]
    rw [key]
    by_cases hty : t.ty = "space"
    · have hts := ty_space hty
      subst hts
      have hRf : countSpaceRuns false (Tok.space :: rest) =
          1 + countSpaceRuns true rest := by
        rw [countSpaceRuns]
        simp [Tok.ty]
      have hRt : countSpaceRuns true (Tok.space :: rest) = countSpaceRuns true rest := by
        rw [countSpaceRuns]
        simp [Tok.ty]
      rcases last with _ | lt
      · have hstep : tokStep env none breaks Tok.space = ([], breaks) := by
          simp [tokStep, tokBlocks, Tok.ty]
        rw [hstep]
        have hinS : inS = false := by
          rcases inS with _ | _
          · rfl
          · exact absurd (hin.mpr rfl) (by simp)
        subst hinS
        rw [hRf]
        have hrec := ih (some "space") breaks true (by simp)
        simp only [Tok.ty, countSpacer, List.countP_nil]
        simp only [countSpacer] at hrec
        omega
      · by_cases hlt : lt = "space"
        · subst hlt
          have hstep : tokStep env (some "space") breaks Tok.space = ([], breaks) := by
            simp [tokStep, tokBlocks, Tok.ty]
          rw [hstep]
          have hinS : inS = true := hin.mp rfl
          subst hinS
          rw [hRt]
          have hrec := ih (some "space") breaks true (by simp)
          simp only [Tok.ty, countSpacer, List.countP_nil]
          simp only [countSpacer] at hrec
          omega
        · have hstep : tokStep env (some lt) breaks Tok.space =
              ((if breaks + 1 ≤ 1 then [Block.spacer] else []), breaks + 1) := by
            simp [tokStep, tokBlocks, Tok.ty, hlt]
          rw [hstep]
          have hinS : inS = false := by
            rcases inS with _ | _
            · rfl
            · have hx := hin.mpr rfl
              simp at hx
              exact absurd hx hlt
          subst hinS
          rw [hRf]
          have hrec := ih (some "space") (breaks + 1) true (by simp)
          have hsp1 : countSpacer (if breaks + 1 ≤ 1 then [Block.spacer] else []) ≤ 1 := by
            by_cases hb : breaks + 1 ≤ 1
            · simp [hb, countSpacer, isSpacer]
            · simp [hb, countSpacer]
          simp only [Tok.ty]
          omega
    · have hsp : (tokStep env last breaks t).1 = tokBlocks env t := by
        rcases last with _ | lt
        · simp [tokStep]
        · by_cases hlt : lt = t.ty
          · simp [tokStep, hlt]
          · simp [tokStep, hlt, hty]
      have hrec := ih (some t.ty) (tokStep env last breaks t).2 false (by simp [hty])
      rw [countSpaceRuns, if_neg hty]
      rw [hsp, countSpacer_tokBlocks]
      omega

/-- C6: at most one Spacer block is emitted per maximal run of
consecutive space tokens; on a kind change into a space token the break
count is incremented and a Spacer emitted only while the count stays
≤ 1; and every non-space token resets the count to 0 regardless of
whether its kind matches the previous token's kind. -/
theorem C6_spacing_heuristic :
    (∀ (env : Env) (toks : List Tok),
        countSpacer (convertTokens env toks) ≤ countSpaceRuns false toks) ∧
    (∀ (env : Env) (last : Option String) (breaks : Nat) (t : Tok),
        t.ty ≠ "space" → (tokStep env last breaks t).2 = 0) ∧
    (∀ (env : Env) (lt : String) (breaks : Nat), lt ≠ "space" →
        tokStep env (some lt) breaks Tok.space =
          ((if breaks + 1 ≤ 1 then [Block.spacer] else []), breaks + 1)) := by
  refine ⟨?_, ?_, ?_⟩
  · intro env toks
    exact convertGo_spacer_le env toks none 0 false (by simp)
  · intro env last breaks t h
    simp [tokStep, h]
  · intro env lt breaks h
    simp [tokStep, tokBlocks, Tok.ty, h]

theorem C6_witness :
    ((tokStep envThrows (some "space") 5 (Tok.heading 1 [])).2 = 0) ∧
      (tokStep envThrows (some "heading") 0 Tok.space = ([Block.spacer], 1)) ∧
      (tokStep envThrows (some "heading") 1 Tok.space = ([], 2)) :=
  ⟨C6_spacing_heuristic.2.1 envThrows (some "space") 5 (Tok.heading 1 []) (by decide),
    by
      have h := C6_spacing_heuristic.2.2 envThrows "heading" 0 (by decide)
      simpa using h,
    by
      have h := C6_spacing_heuristic.2.2 envThrows "heading" 1 (by decide)
      simpa using h⟩

theorem plItems_num_irrel (items : List LItem) :
    ∀ (o : Bool) (lvl n1 n2 : Nat) (first : Bool),
      plItems items o lvl n1 first = plItems items o lvl n2 first := by
  induction items with
  | nil => intro o lvl n1 n2 first; simp [plItems]
  | cons i rest ih =>
    intro o lvl n1 n2 first
    cases i with
    | mk task checked text subs =>
      simp only [plItems]
      rw [ih o lvl (n1 + 1) (n2 + 1) false]

/-- C7: the numbering state passed to the List Materializer never
influences the emitted blocks — in particular every nested ordered list
is processed with the default `startNum = 1`, so its numbering restarts
at 1 regardless of the index the parent item had at its own level. -/
theorem C7_numbering_restart :
    (∀ (items : List LItem) (ordered : Bool) (level n1 n2 : Nat),
        processListItems items ordered level n1 =
          processListItems items ordered level n2) ∧
    (∀ (o2 : Bool) (innerItems : List LItem) (rest : List LSub) (level : Nat),
        plSubs (LSub.listTok o2 innerItems :: rest) level =
          processListItems innerItems o2 (level + 1) 1 ++ plSubs rest level) := by
  constructor
  · intro items ordered level n1 n2
    rw [processListItems, processListItems]
    exact plItems_num_irrel items ordered level n1 n2 (level == 0)
  · intro o2 innerItems rest level
    rw [plSubs, processListItems]

/-- C9: every list item carrying the task flag gets a checkbox glyph
run (checked ☑ or unchecked ☐) prepended before its own formatted runs;
in particular the lexed form of "- [x] Done" yields a list item with
checked = true whose runs begin with the checked glyph followed by the
plain run "Done". -/
theorem C9_task_checkbox :
    (∀ (checked : Bool) (text : List Char) (subs : List LSub) (rest : List LItem)
        (ordered : Bool) (level num : Nat),
        processListItems (LItem.mk true checked text subs :: rest) ordered level num =
          LIB.mk (Run.tr (if checked then "☑ ".toList else "☐ ".toList) defProps
              :: processFormattedText text) ordered level (level == 0)
            :: (plSubs subs level ++ plItems rest ordered level (num + 1) false)) ∧
    (∀ env : Env, convertTokens env lexDashXDone =
        [Block.listItem (LIB.mk [Run.tr ("☑ ".toList) defProps,
          Run.tr ("Done".toList) defProps] false 0 true)]) := by
  constructor
  · intro checked text subs rest ordered level num
    rw [processListItems]
    simp only [plItems, itemRuns, if_pos rfl]
    simp
  · intro env
    have hd : findMatch ("Done".toList) = none := by decide
    have hp := processFormattedText_noMatch hd
    simp at hp
    simp [convertTokens, convertGo, tokStep, tokBlocks, Tok.ty, processListItems,
      plItems, plSubs, itemRuns, hp, lexDashXDone]

instance (c : Char) : Decidable (plainChar c) := by
  unfold plainChar
  infer_instance

theorem matchAt_nil : matchAt [] = none := by decide

theorem tryLink_none {x : Char} (l : List Char) (hx : x ≠ '[') :
    tryLink (x :: l) = none := by
  simp [tryLink, hx]

theorem tryPair2_none {c x : Char} (l : List Char) (hx : x ≠ c) :
    tryPair2 c (x :: l) = none := by
  cases l with
  | nil => rfl
  | cons b bs => simp [tryPair2, hx]

theorem tryPair1_none {c x : Char} (l : List Char) (hx : x ≠ c) :
    tryPair1 c (x :: l) = none := by
  simp [tryPair1, hx]

theorem matchAt_none_plain {x : Char} {l : List Char} (hp : plainChar x) :
    matchAt (x :: l) = none := by
  obtain ⟨h1, h2, h3, h4⟩ := hp
  simp [matchAt, tryLink_none l h4, tryPair2_none l h2, tryPair2_none l h1,
    tryPair1_none l h1, tryPair1_none l h3]

theorem findMatch_plain_none {l : List Char} (h : ∀ x ∈ l, plainChar x) :
    findMatch l = none := by
  induction l with
  | nil => rfl
  | cons a rest ih =>
    simp [findMatch, matchAt_none_plain (h a (by simp)),
      ih (fun x hx => h x (by simp [hx]))]

theorem findMatch_prepend {pre s : List Char} {r : RawMatch} {rem : List Char}
    (hpre : ∀ x ∈ pre, plainChar x) (hm : matchAt s = some (r, rem)) :
    findMatch (pre ++ s) = some (pre, r, rem) := by
  induction pre with
  | nil =>
    cases s with
    | nil => rw [matchAt_nil] at hm; exact absurd hm (by simp)
    | cons a s' => simp [findMatch, hm]
  | cons p pre' ih =>
    have hplain := hpre p (by simp)
    have ih' := ih (fun x hx => hpre x (by simp [hx]))
    simp [findMatch, matchAt_none_plain hplain, ih']

theorem splitAtChar_clean {c : Char} :
    ∀ (b rest : List Char), (∀ x ∈ b, x ≠ c) →
      splitAtChar c (b ++ c :: rest) = some (b, rest) := by
  intro b
  induction b with
  | nil => intro rest h; simp [splitAtChar]
  | cons x b' ih =>
    intro rest h
    have hx := h x (by simp)
    simp [splitAtChar, hx, ih rest (fun y hy => h y (by simp [hy]))]

theorem findClose1_clean {c : Char} :
    ∀ (b rest : List Char), (∀ x ∈ b, x ≠ c ∧ isDot x = true) →
      findClose1 c (b ++ c :: rest) = some (b, rest) := by
  intro b
  induction b with
  | nil => intro rest h; simp [findClose1]
  | cons x b' ih =>
    intro rest h
    have hx := h x (by simp)
    simp [findClose1, hx.1, hx.2, ih rest (fun y hy => h y (by simp [hy]))]

theorem findClose2_clean {c : Char} :
    ∀ (b rest : List Char), (∀ x ∈ b, x ≠ c ∧ isDot x = true) →
      findClose2 c (b ++ c :: c :: rest) = some (b, rest) := by
  intro b
  induction b with
  | nil => intro rest h; simp [findClose2]
  | cons x b' ih =>
    intro rest h
    have hx := h x (by simp)
    have ih' := ih rest (fun z hz => h z (by simp [hz]))
    cases b' with
    | nil =>
      simp only [List.nil_append] at ih'
      simp [findClose2, hx.1, hx.2, ih']
    | cons y b'' =>
      simp only [List.cons_append] at ih' ⊢
      simp [findClose2, hx.1, hx.2, ih']

theorem matchAt_construct {c : Construct} (post : List Char) (hc : c.ok) :
    matchAt (c.render ++ post) = some (c.rawOf, post) := by
  cases c with
  | bold b =>
    obtain ⟨hne, hall⟩ := hc
    have hshape : (Construct.bold b).render ++ post =
        '*' :: '*' :: (b ++ '*' :: '*' :: post) := by
      simp [Construct.render]
    rw [hshape]
    have hfc := findClose2_clean b post
      (fun x hx => ⟨(hall x hx).1, (hall x hx).2.2.2.2⟩)
    have t3 : tryPair2 '*' ('*' :: '*' :: (b ++ '*' :: '*' :: post)) =
        some (.pair2 '*' b, post) := by
      simp [tryPair2, hfc]
    simp [matchAt, tryLink_none, tryPair2_none, t3, Construct.rawOf]
  | strike b =>
    obtain ⟨hne, hall⟩ := hc
    have hshape : (Construct.strike b).render ++ post =
        '~' :: '~' :: (b ++ '~' :: '~' :: post) := by
      simp [Construct.render]
    rw [hshape]
    have hfc := findClose2_clean b post
      (fun x hx => ⟨(hall x hx).2.1, (hall x hx).2.2.2.2⟩)
    have t2 : tryPair2 '~' ('~' :: '~' :: (b ++ '~' :: '~' :: post)) =
        some (.pair2 '~' b, post) := by
      simp [tryPair2, hfc]
    simp [matchAt, tryLink_none, t2, Construct.rawOf]
  | italic b =>
    obtain ⟨hne, hall⟩ := hc
    match b, hne with
    | x :: xs, _ =>
      have hx := hall x (by simp)
      have hshape : (Construct.italic (x :: xs)).render ++ post =
          '*' :: x :: (xs ++ '*' :: post) := by
        simp [Construct.render]
      rw [hshape]
      have t3 : tryPair2 '*' ('*' :: x :: (xs ++ '*' :: post)) = none := by
        simp [tryPair2, hx.1]
      have hfc := findClose1_clean (x :: xs) post
        (fun y hy => ⟨(hall y hy).1, (hall y hy).2.2.2.2⟩)
      simp only [List.cons_append] at hfc
      have t4 : tryPair1 '*' ('*' :: x :: (xs ++ '*' :: post)) =
          some (.pair1 '*' (x :: xs), post) := by
        simp [tryPair1, hfc]
      simp [matchAt, tryLink_none, tryPair2_none, t3, t4, Construct.rawOf]
  | codeSpan b =>
    obtain ⟨hne, hall⟩ := hc
    have hshape : (Construct.codeSpan b).render ++ post =
        backtick :: (b ++ backtick :: post) := by
      simp [Construct.render]
    rw [hshape]
    have hfc := findClose1_clean b post
      (fun x hx => ⟨(hall x hx).2.2.1, (hall x hx).2.2.2.2⟩)
    have t5 : tryPair1 backtick (backtick :: (b ++ backtick :: post)) =
        some (.pair1 backtick b, post) := by
      simp [tryPair1, hfc]
    have n1 : backtick ≠ '[' := by decide
    have n2 : backtick ≠ '~' := by decide
    have n3 : backtick ≠ '*' := by decide
    simp [matchAt, tryLink_none (b ++ backtick :: post) n1,
      tryPair2_none (b ++ backtick :: post) n2, tryPair2_none (b ++ backtick :: post) n3,
      tryPair1_none (b ++ backtick :: post) n3, t5, Construct.rawOf]
  | hyper t u =>
    obtain ⟨ht, htc, hu, huc⟩ := hc
    have hshape : (Construct.hyper t u).render ++ post =
        '[' :: (t ++ ']' :: ('(' :: (u ++ ')' :: post))) := by
      simp [Construct.render]
    rw [hshape]
    have hsp1 := splitAtChar_clean t ('(' :: (u ++ ')' :: post)) htc
    have hsp2 := splitAtChar_clean u post huc
    have t1 : tryLink ('[' :: (t ++ ']' :: ('(' :: (u ++ ')' :: post)))) =
        some (.link t u, post) := by
      rw [tryLink]
      simp only [if_pos rfl, hsp1]
      have htne : t.isEmpty = false := by simpa using ht
      have hune : u.isEmpty = false := by simpa using hu
      simp [htne, hune, hsp2]
    simp [matchAt, t1, Construct.rawOf]

theorem classify_rawOf {c : Construct} (hc : c.ok) :
    classify c.rawOf = some c.spanRun := by
  cases c with
  | bold b => exact classify_pair2_star b
  | strike b => exact classify_pair2_tilde b
  | codeSpan b => exact classify_pair1_code b
  | italic b =>
    obtain ⟨hne, hall⟩ := hc
    match b, hne with
    | x :: xs, _ => exact classify_pair1_star_cons x xs (hall x (by simp)).1
  | hyper t u =>
    obtain ⟨ht, _, hu, _⟩ := hc
    exact classify_link t u ht hu

/-- C2: for input text containing exactly one formatting construct —
bold, italic, strikethrough, inline code, or hyperlink — with
marker-free text around a well-formed construct body, the Inline Span
Parser emits exactly one non-plain run of the matching kind, and all
text before and after the construct is preserved as plain runs in
original order. -/
theorem C2_single_construct (c : Construct) (pre post : List Char) (hc : c.ok)
    (hpre : ∀ x ∈ pre, plainChar x) (hpost : ∀ x ∈ post, plainChar x) :
    processFormattedText (pre ++ c.render ++ post) =
      (if pre.isEmpty then [] else [Run.tr pre defProps]) ++ c.spanRun ::
        (if post.isEmpty then [] else [Run.tr post defProps]) := by
  have hm : matchAt (c.render ++ post) = some (c.rawOf, post) := matchAt_construct post hc
  have hf : findMatch (pre ++ (c.render ++ post)) = some (pre, c.rawOf, post) :=
    findMatch_prepend hpre hm
  have hcl : classify c.rawOf = some c.spanRun := classify_rawOf hc
  have hpost' : findMatch post = none := findMatch_plain_none hpost
  have hscanpost : scanAux post = if post.isEmpty then [] else [Run.tr post defProps] := by
    rw [scanAux, hpost']
  have hscan : scanAux (pre ++ c.render ++ post) =
      (if pre.isEmpty then [] else [Run.tr pre defProps]) ++ c.spanRun ::
        (if post.isEmpty then [] else [Run.tr post defProps]) := by
    rw [List.append_assoc, scanAux, hf]
    simp only
    rw [hcl, hscanpost]
    simp
  rw [processFormattedText]
  simp only [hscan]
  have hne : ((if pre.isEmpty then [] else [Run.tr pre defProps]) ++ c.spanRun ::
      (if post.isEmpty then [] else [Run.tr post defProps])).isEmpty = false := by
    simp
  rw [hne]
  simp

theorem C2_witness :
    processFormattedText
        (("ab".toList) ++ (Construct.bold ("cd".toList)).render ++ ("ef".toList)) =
      [Run.tr ("ab".toList) defProps, Run.tr ("cd".toList) boldProps,
        Run.tr ("ef".toList) defProps] := by
  have h := C2_single_construct (Construct.bold ("cd".toList)) ("ab".toList)
    ("ef".toList) ⟨by decide, by decide⟩ (by decide) (by decide)
  simpa [Construct.spanRun] using h
